import Mathlib

/-!
Verification of the Kibble-Zurek demo repository.

The numerical helpers (helpers/kz_calcs.py, helpers/qa.py) and the job
lifecycle callback (app.py) are embedded shallowly:

* spin samples are lists of integers, coupling strengths and schedule
  columns are rationals, float results involving pi and square roots are
  real numbers;
* a Python exception escaping a function is modelled by an Option-valued
  result with value none;
* non-finite float values (NaN or inf) in a returned array are modelled by
  none entries; inside the rate-constant pipeline the finiteness class of
  every float (finite, +inf, -inf, NaN) is tracked explicitly.
-/

/- ----------------------------------------------------------------- -/
/- helpers/kz_calcs.py : kink_stats (lines 54-87)                     -/
/- ----------------------------------------------------------------- -/

/-- Differences of adjacent elements: for [a0, a1, ..., ak] this returns
[a1 - a0, ..., ak - a(k-1)], exactly what np.diff computes along a row. -/
def adjDiffs : List Int → List Int
  | a :: b :: rest => (b - a) :: adjDiffs (b :: rest)
  | _ => []

/-- The sign-switch row of kink_stats: np.diff applied to the row with its
last element prepended (kz_calcs.py lines 72-73), i.e. the cyclic first
difference of the row. -/
def cyclicDiff : List Int → List Int
  | [] => []
  | a :: rest => adjDiffs ((a :: rest).getLastD a :: a :: rest)

/-- Per-row kink count of kink_stats: for J < 0 the number of nonzero
entries of the cyclic difference (np.count_nonzero, line 77), otherwise the
number of zero entries (np.count_nonzero(... == 0), line 84). -/
def kinksPerSample (J : ℚ) (row : List Int) : Nat :=
  if J < 0 then (cyclicDiff row).countP (fun d => d != 0)
  else (cyclicDiff row).countP (fun d => d == 0)

/-- kink_stats (kz_calcs.py lines 54-87): per-sample kink counts together
with the mean kink density, mean(counts) / shape[1] where shape[1] is the
common row length. -/
def kink_stats (sampleset : List (List Int)) (J : ℚ) : List Nat × ℚ :=
  let counts := sampleset.map (kinksPerSample J)
  (counts,
    ((counts.map (fun (c : Nat) => (c : ℚ))).sum / (sampleset.length : ℚ)) /
      ((sampleset.headD []).length : ℚ))

/-- Cyclic first difference stated the way the specification words it: the
entry at position i is the element at i minus its cyclic predecessor, the
element at position (i + N - 1) mod N. -/
def cyclicDiffSpec (row : List Int) : List Int :=
  List.ofFn (fun i : Fin row.length =>
    row.getD i.val 0 - row.getD ((i.val + row.length - 1) % row.length) 0)

/-- A perfectly alternating row of N spins: +1 at even positions, -1 at odd
positions. -/
def altRow (N : Nat) : List Int :=
  List.ofFn (fun i : Fin N => if i.val % 2 = 0 then 1 else -1)

theorem adjDiffs_length : ∀ l : List Int, (adjDiffs l).length = l.length - 1
  | [] => rfl
  | [_] => rfl
  | _ :: b :: rest => by
      simp [adjDiffs, adjDiffs_length (b :: rest)]

theorem adjDiffs_getD :
    ∀ (l : List Int) (i : Nat), i + 1 < l.length →
      (adjDiffs l).getD i 0 = l.getD (i + 1) 0 - l.getD i 0
  | [], _, h => by simp at h
  | [_], _, h => by simp at h
  | _ :: _ :: _, 0, _ => by simp [adjDiffs]
  | a :: b :: rest, i + 1, h => by
      have ih := adjDiffs_getD (b :: rest) i (by simpa using h)
      simpa [adjDiffs] using ih

theorem cyclicDiff_length (row : List Int) :
    (cyclicDiff row).length = row.length := by
  cases row with
  | nil => rfl
  | cons a rest => simp [cyclicDiff, adjDiffs_length]

theorem getLastD_eq_getD (l : List Int) (a : Int) (h : l ≠ []) :
    l.getLastD a = l.getD (l.length - 1) 0 := by
  cases l with
  | nil => exact absurd rfl h
  | cons b t =>
    rw [List.getLastD_eq_getLast?, List.getLast?_eq_getElem?,
      List.getD_eq_getElem?_getD]
    have hlt : (b :: t).length - 1 < (b :: t).length := by simp
    rw [List.getElem?_eq_getElem hlt]
    simp

theorem cyclicDiff_getD (row : List Int) (i : Nat) (h : i < row.length) :
    (cyclicDiff row).getD i 0 =
      row.getD i 0 - row.getD ((i + row.length - 1) % row.length) 0 := by
  cases row with
  | nil => simp at h
  | cons a rest =>
    set r : List Int := a :: rest with hr
    have hlen : r.length = rest.length + 1 := by simp [hr]
    have hget := adjDiffs_getD (r.getLastD a :: r) i (by simp [hlen]; omega)
    have hcd : cyclicDiff r = adjDiffs (r.getLastD a :: r) := by
      simp [cyclicDiff, hr]
    rw [hcd, hget]
    cases i with
    | zero =>
      have hmod : (0 + r.length - 1) % r.length = r.length - 1 := by
        have : r.length - 1 < r.length := by omega
        simpa using Nat.mod_eq_of_lt this
      have hlast : r.getLastD a = r.getD (r.length - 1) 0 :=
        getLastD_eq_getD r a (by simp [hr])
      rw [hmod, ← hlast, List.getD_cons_succ, List.getD_cons_zero,
        List.getD_cons_zero]
    | succ j =>
      have hj : j < r.length := by omega
      have hmod : (j + 1 + r.length - 1) % r.length = j := by
        have h1 : j + 1 + r.length - 1 = j + r.length := by omega
        rw [h1, Nat.add_mod_right]
        exact Nat.mod_eq_of_lt hj
      rw [hmod]
      rfl

theorem cyclicDiff_eq_spec (row : List Int) :
    cyclicDiff row = cyclicDiffSpec row := by
  apply List.ext_getElem
  · simp [cyclicDiff_length, cyclicDiffSpec]
  · intro i h1 h2
    have hi : i < row.length := by simpa [cyclicDiff_length] using h1
    have hl := cyclicDiff_getD row i hi
    have hdl : (cyclicDiff row).getD i 0 = (cyclicDiff row)[i] :=
      List.getD_eq_getElem _ _ h1
    have hspec : (cyclicDiffSpec row)[i] =
        row.getD i 0 - row.getD ((i + row.length - 1) % row.length) 0 := by
      simp only [cyclicDiffSpec, List.getElem_ofFn]
    rw [← hdl, hl, hspec]

/-- Kink count of a row as the specification words it: the number of nonzero
entries of the cyclic first difference for J < 0, the number of zero entries
otherwise. -/
def kinkCountSpec (J : ℚ) (row : List Int) : Nat :=
  if J < 0 then (cyclicDiffSpec row).countP (fun d => d != 0)
  else (cyclicDiffSpec row).countP (fun d => d == 0)

theorem kinksPerSample_eq_spec (J : ℚ) (row : List Int) :
    kinksPerSample J row = kinkCountSpec J row := by
  simp [kinksPerSample, kinkCountSpec, cyclicDiff_eq_spec]

theorem altRow_getD (N k : Nat) (h : k < N) :
    (altRow N).getD k 0 = if k % 2 = 0 then 1 else -1 := by
  have hlen : k < (altRow N).length := by simpa [altRow] using h
  rw [List.getD_eq_getElem _ _ hlen]
  simp [altRow]

theorem cyclicDiffSpec_getElem (row : List Int) (i : Nat)
    (h : i < (cyclicDiffSpec row).length) :
    (cyclicDiffSpec row)[i] =
      row.getD i 0 - row.getD ((i + row.length - 1) % row.length) 0 := by
  simp only [cyclicDiffSpec, List.getElem_ofFn]

theorem cyclicDiffSpec_length (row : List Int) :
    (cyclicDiffSpec row).length = row.length := by
  simp [cyclicDiffSpec]

theorem cyclicDiffSpec_alt_ne_zero (N : Nat) (he : N % 2 = 0)
    (d : Int) (hd : d ∈ cyclicDiffSpec (altRow N)) : d ≠ 0 := by
  rw [List.mem_iff_getElem] at hd
  obtain ⟨i, hiLen, hdi⟩ := hd
  have hrow : (altRow N).length = N := by simp [altRow]
  have hform := cyclicDiffSpec_getElem (altRow N) i hiLen
  rw [hrow] at hform
  rw [hform] at hdi
  have hiN : i < N := by
    rw [cyclicDiffSpec_length, hrow] at hiLen
    exact hiLen
  have h0 : 0 < N := Nat.lt_of_le_of_lt (Nat.zero_le i) hiN
  cases i with
  | zero =>
    have hmod : (0 + N - 1) % N = N - 1 := by
      have : N - 1 < N := by omega
      simpa using Nat.mod_eq_of_lt this
    have hA : (altRow N).getD 0 0 = 1 := by
      rw [altRow_getD N 0 h0]
      norm_num
    have hB : (altRow N).getD (N - 1) 0 = -1 := by
      rw [altRow_getD N (N - 1) (by omega)]
      have : (N - 1) % 2 = 1 := by omega
      simp [this]
    rw [hmod, hA, hB] at hdi
    omega
  | succ j =>
    have hmod : (j + 1 + N - 1) % N = j := by
      have h1 : j + 1 + N - 1 = j + N := by omega
      rw [h1, Nat.add_mod_right]
      exact Nat.mod_eq_of_lt (by omega)
    rw [hmod, altRow_getD N (j + 1) hiN, altRow_getD N j (by omega)] at hdi
    rcases Nat.mod_two_eq_zero_or_one j with hj | hj
    · have hj1 : (j + 1) % 2 = 1 := by omega
      simp [hj, hj1] at hdi
      omega
    · have hj1 : (j + 1) % 2 = 0 := by omega
      simp [hj, hj1] at hdi
      omega

theorem cyclicDiffSpec_const_eq_zero (N : Nat) (c : Int) (d : Int)
    (hd : d ∈ cyclicDiffSpec (List.replicate N c)) : d = 0 := by
  rw [List.mem_iff_getElem] at hd
  obtain ⟨i, hiLen, hdi⟩ := hd
  have hrow : (List.replicate N c).length = N := by simp
  have hform := cyclicDiffSpec_getElem (List.replicate N c) i hiLen
  rw [hrow] at hform
  rw [hform] at hdi
  have hiN : i < N := by
    rw [cyclicDiffSpec_length, hrow] at hiLen
    exact hiLen
  have hg1 : (List.replicate N c).getD i 0 = c := by
    rw [List.getD_eq_getElem _ _ (by simpa using hiN)]
    simp
  have hg2 : (List.replicate N c).getD ((i + N - 1) % N) 0 = c := by
    have hlt : (i + N - 1) % N < N := Nat.mod_lt _ (by omega)
    rw [List.getD_eq_getElem _ _ (by simpa using hlt)]
    simp
  rw [hg1, hg2] at hdi
  omega

theorem kinksPerSample_alt (J : ℚ) (hJ : 0 ≤ J) (N : Nat) (he : N % 2 = 0) :
    kinksPerSample J (altRow N) = 0 := by
  rw [kinksPerSample, if_neg (not_lt.mpr hJ), cyclicDiff_eq_spec,
    List.countP_eq_zero]
  intro d hd
  have := cyclicDiffSpec_alt_ne_zero N he d hd
  simpa using this

theorem kinksPerSample_const (J : ℚ) (hJ : J < 0) (N : Nat) (c : Int) :
    kinksPerSample J (List.replicate N c) = 0 := by
  rw [kinksPerSample, if_pos hJ, cyclicDiff_eq_spec, List.countP_eq_zero]
  intro d hd
  have := cyclicDiffSpec_const_eq_zero N c d hd
  simp [this]

theorem kink_stats_density_zero (samples : List (List Int)) (J : ℚ)
    (h : ∀ row ∈ samples, kinksPerSample J row = 0) :
    (kink_stats samples J).2 = 0 := by
  have hsum :
      (samples.map (fun row => ((kinksPerSample J row : ℚ)))).sum = 0 := by
    apply List.sum_eq_zero
    intro x hx
    rw [List.mem_map] at hx
    obtain ⟨row, hrow, hx⟩ := hx
    rw [← hx, h row hrow]
    norm_num
  show ((samples.map (kinksPerSample J)).map (fun (c : Nat) => (c : ℚ))).sum /
      (samples.length : ℚ) / ((samples.headD []).length : ℚ) = 0
  have hc : ((fun c : Nat => (c : ℚ)) ∘ kinksPerSample J) =
      fun row => ((kinksPerSample J row : ℚ)) := rfl
  rw [List.map_map, hc, hsum]
  simp

theorem sum_map_div_q (l : List ℚ) (d : ℚ) :
    (l.map (fun q => q / d)).sum = l.sum / d := by
  induction l with
  | nil => simp
  | cons a t ih => simp [ih, add_div]

/-- C1: kink_stats takes the cyclic first difference of each sample row
(each element minus its cyclic predecessor); for J < 0 the per-sample kink
count is the number of nonzero entries of that difference, for J >= 0 the
number of zero entries; the mean kink density is the average over rows of
count / N; a perfectly alternating sample set has J >= 0 density 0 and a
uniformly constant one has J < 0 density 0. -/
theorem c1_kink_stats (samples : List (List Int)) (J : ℚ) (N : Nat)
    (hN : 0 < N) (hne : samples ≠ [])
    (hlen : ∀ row ∈ samples, row.length = N) :
    (kink_stats samples J).1 = samples.map (kinkCountSpec J) ∧
    (kink_stats samples J).2 =
      (samples.map (fun row => ((kinkCountSpec J row : ℚ) / (N : ℚ)))).sum /
        (samples.length : ℚ) ∧
    (∀ M : Nat, ∀ J2 : ℚ, 0 ≤ J2 → N % 2 = 0 →
      (kink_stats (List.replicate M (altRow N)) J2).2 = 0) ∧
    (∀ M : Nat, ∀ J3 : ℚ, J3 < 0 → ∀ c : Int,
      (kink_stats (List.replicate M (List.replicate N c)) J3).2 = 0) := by
  have hfun : kinksPerSample J = kinkCountSpec J :=
    funext (kinksPerSample_eq_spec J)
  refine ⟨?_, ?_, ?_, ?_⟩
  · show samples.map (kinksPerSample J) = samples.map (kinkCountSpec J)
    rw [hfun]
  · show ((samples.map (kinksPerSample J)).map (fun (c : Nat) => (c : ℚ))).sum /
        (samples.length : ℚ) / ((samples.headD []).length : ℚ) = _
    obtain ⟨s, t, rfl⟩ := List.exists_cons_of_ne_nil hne
    have hhead : ((s :: t).headD []).length = N := hlen s (by simp)
    have hmm : (s :: t).map (fun row => ((kinkCountSpec J row : ℚ) / (N : ℚ))) =
        ((s :: t).map (fun row => ((kinkCountSpec J row : ℚ)))).map
          (fun q => q / (N : ℚ)) := by
      rw [List.map_map]
      rfl
    rw [hhead, hmm, sum_map_div_q, List.map_map, hfun]
    have hc : ((fun (c : Nat) => (c : ℚ)) ∘ kinkCountSpec J) =
        fun row => ((kinkCountSpec J row : ℚ)) := rfl
    rw [hc, div_right_comm]
  · intro M J2 hJ2 he
    apply kink_stats_density_zero
    intro row hrow
    rw [List.eq_of_mem_replicate hrow]
    exact kinksPerSample_alt J2 hJ2 N he
  · intro M J3 hJ3 c
    apply kink_stats_density_zero
    intro row hrow
    rw [List.eq_of_mem_replicate hrow]
    exact kinksPerSample_const J3 hJ3 N c

/-- Witness for C1 at a concrete sample set: two rows of four spins with
J = -1, plus the alternating and constant sample sets at N = 4. -/
theorem c1_kink_stats_witness :
    (0 < 4 ∧ ([[1, 1, -1, -1], [1, -1, 1, -1]] : List (List Int)) ≠ []) ∧
    (kink_stats [[1, 1, -1, -1], [1, -1, 1, -1]] (-1)).1 =
      ([[1, 1, -1, -1], [1, -1, 1, -1]] : List (List Int)).map
        (kinkCountSpec (-1)) ∧
    (kink_stats (List.replicate 2 (altRow 4)) 0).2 = 0 ∧
    (kink_stats (List.replicate 2 (List.replicate 4 (1 : Int))) (-1)).2 = 0 := by
  have h := c1_kink_stats [[1, 1, -1, -1], [1, -1, 1, -1]] (-1) 4
    (by norm_num) (by simp) (by decide)
  exact ⟨⟨by norm_num, by simp⟩, h.1, h.2.2.1 2 0 (by norm_num) (by norm_num),
    h.2.2.2 2 (-1) (by norm_num) 1⟩

/- ----------------------------------------------------------------- -/
/- helpers/kz_calcs.py : theoretical_kink_density (lines 19-52)       -/
/- ----------------------------------------------------------------- -/

/-- Minimum value of a list of rationals (0 for the empty list). -/
def listMin : List ℚ → ℚ
  | [] => 0
  | [a] => a
  | a :: b :: rest => min a (listMin (b :: rest))

/-- pandas idxmin on a positional index: the first position holding the
minimum value (0 for the empty list). -/
def idxmin : List ℚ → Nat
  | [] => 0
  | [_] => 0
  | a :: b :: rest => if a ≤ listMin (b :: rest) then 0 else idxmin (b :: rest) + 1

/-- An IEEE-754 double as it matters to the b pipeline: a finite value is
carried exactly as a rational, and the non-finite values +inf, -inf and NaN
are tracked explicitly (signed zeros are not distinguished). -/
inductive FloatVal where
  | finite : ℚ → FloatVal
  | posInf
  | negInf
  | nan
  deriving DecidableEq

/-- IEEE float division on the model: a finite value over zero gives a
signed infinity (NaN for 0/0), a finite value over an infinity gives zero,
an infinity over a finite value keeps (or flips) its sign, inf/inf and any
NaN operand give NaN. -/
def fdiv : FloatVal → FloatVal → FloatVal
  | FloatVal.finite a, FloatVal.finite b =>
    if b = 0 then
      if 0 < a then FloatVal.posInf
      else if a < 0 then FloatVal.negInf
      else FloatVal.nan
    else FloatVal.finite (a / b)
  | FloatVal.finite _, FloatVal.posInf => FloatVal.finite 0
  | FloatVal.finite _, FloatVal.negInf => FloatVal.finite 0
  | FloatVal.posInf, FloatVal.finite b =>
    if 0 ≤ b then FloatVal.posInf else FloatVal.negInf
  | FloatVal.negInf, FloatVal.finite b =>
    if 0 ≤ b then FloatVal.negInf else FloatVal.posInf
  | _, _ => FloatVal.nan

/-- IEEE float subtraction on the model: finite minus finite is exact, an
infinity absorbs a finite operand, opposite infinities keep the sign of the
left operand, equal infinities and any NaN operand give NaN. -/
def fsub : FloatVal → FloatVal → FloatVal
  | FloatVal.finite a, FloatVal.finite b => FloatVal.finite (a - b)
  | FloatVal.posInf, FloatVal.finite _ => FloatVal.posInf
  | FloatVal.negInf, FloatVal.finite _ => FloatVal.negInf
  | FloatVal.finite _, FloatVal.posInf => FloatVal.negInf
  | FloatVal.finite _, FloatVal.negInf => FloatVal.posInf
  | FloatVal.posInf, FloatVal.negInf => FloatVal.posInf
  | FloatVal.negInf, FloatVal.posInf => FloatVal.negInf
  | _, _ => FloatVal.nan

/-- pandas Series.diff: the entry at position 0 is NaN and the entry at
position i is the finite difference l[i] - l[i-1]. -/
def seriesDiff (l : List ℚ) : List FloatVal :=
  FloatVal.nan :: List.zipWith (fun x y => FloatVal.finite (y - x)) l l.tail

/-- Discrete derivative column X.diff()/C.diff() of kz_calcs.py lines
42-43, with IEEE float division semantics. -/
def seriesTag (X C : List ℚ) : List FloatVal :=
  List.zipWith fdiv (seriesDiff X) (seriesDiff C)

/-- Critical index: idxmin of abs(A - B*abs(J)) (kz_calcs.py line 45). -/
def scIndex (A B : List ℚ) (J : ℚ) : Nat :=
  idxmin (List.zipWith (fun a b => abs (a - b * abs J)) A B)

/-- Core of the rate constant b of kz_calcs.py lines 48-50:
b = 1e9 * pi * bCore with bCore = A[sc] / (B_tag[sc]/B[sc] -
A_tag[sc]/A[sc]), computed with IEEE float semantics. Factoring the
strictly positive constant 1e9 * pi out of the numerator changes neither
the finiteness class nor the sign of any value in the pipeline, so for a
finite result b = 1e9 * pi * bCore exactly and for a non-finite result b
is the same infinity or NaN as bCore. -/
def bCore (A B C : List ℚ) (J : ℚ) : FloatVal :=
  let sc := scIndex A B J
  let den :=
    fsub (fdiv ((seriesTag B C).getD sc FloatVal.nan)
           (FloatVal.finite (B.getD sc 0)))
         (fdiv ((seriesTag A C).getD sc FloatVal.nan)
           (FloatVal.finite (A.getD sc 0)))
  fdiv (FloatVal.finite (A.getD sc 0)) den

/-- theoretical_kink_density (kz_calcs.py lines 19-52): the kink density
predicted for each annealing time (nanoseconds). A returned entry is
some v for a finite float result v and none for a non-finite one (NaN or
inf): with b finite positive the value is the usual finite formula; with
b = +inf the denominator 2 pi sqrt(2 b) is +inf and the entry is the
finite float 0.0 for every positive anneal time; with b finite and not
positive, b = -inf or b NaN, sqrt produces NaN (or the division by the
zero denominator produces inf) and every entry is non-finite; a
non-positive anneal time likewise makes its own entry non-finite. -/
noncomputable def theoretical_kink_density (annealing_times_ns : List ℚ)
    (J : ℚ) (A B C : List ℚ) : List (Option ℝ) :=
  match bCore A B C J with
  | FloatVal.finite q =>
    if 0 < q then
      annealing_times_ns.map (fun (t : ℚ) =>
        if t ≤ 0 then none
        else some ((Real.sqrt ((1e-9 : ℝ) * (t : ℝ)))⁻¹ /
          (2 * Real.pi * Real.sqrt (2 * ((1e9 : ℝ) * Real.pi * (q : ℝ))))))
    else annealing_times_ns.map (fun _ => none)
  | FloatVal.posInf =>
    annealing_times_ns.map (fun (t : ℚ) =>
      if t ≤ 0 then none else some 0)
  | FloatVal.negInf => annealing_times_ns.map (fun _ => none)
  | FloatVal.nan => annealing_times_ns.map (fun _ => none)

/-- The list |A(s) - B(s)*|J|| over which the critical point is located. -/
def absDiffList (A B : List ℚ) (J : ℚ) : List ℚ :=
  List.zipWith (fun a b => abs (a - b * abs J)) A B

/-- Position i holds the first minimum of the list l. -/
def IsFirstArgmin (l : List ℚ) (i : Nat) : Prop :=
  i < l.length ∧ (∀ j < l.length, l.getD i 0 ≤ l.getD j 0) ∧
    ∀ j < i, l.getD i 0 < l.getD j 0

/-- The denominator of the rate constant b as the specification words it:
the derivatives at the critical index taken as discrete (backward)
differences with respect to the normalized-time column. -/
def backwardDenom (A B C : List ℚ) (sc : Nat) : ℚ :=
  (B.getD sc 0 - B.getD (sc - 1) 0) / (C.getD sc 0 - C.getD (sc - 1) 0) /
      B.getD sc 0 -
    (A.getD sc 0 - A.getD (sc - 1) 0) / (C.getD sc 0 - C.getD (sc - 1) 0) /
      A.getD sc 0

/-- The predicted kink density value as the specification words it:
t^(-1/2) / (2 pi sqrt(2 b)) with b = pi * A(s*) converted from GHz to Hz
divided by the derivative denominator, and t converted to seconds. -/
noncomputable def predictedValue (t aSc den : ℚ) : ℝ :=
  ((1e-9 : ℝ) * (t : ℝ)) ^ (-(1 / 2 : ℝ)) /
    (2 * Real.pi * Real.sqrt (2 * (Real.pi * (1e9 : ℝ) * (aSc : ℝ) / (den : ℝ))))

theorem listMin_le_getD :
    ∀ (l : List ℚ) (j : Nat), j < l.length → listMin l ≤ l.getD j 0
  | [], _, h => by simp at h
  | [a], 0, _ => by simp [listMin]
  | [a], j + 1, h => by simp at h
  | a :: b :: rest, 0, _ => by simp [listMin]
  | a :: b :: rest, j + 1, h => by
      have ih := listMin_le_getD (b :: rest) j (by simpa using h)
      calc listMin (a :: b :: rest) ≤ listMin (b :: rest) := min_le_right _ _
        _ ≤ (b :: rest).getD j 0 := ih
        _ = (a :: b :: rest).getD (j + 1) 0 := rfl

theorem idxmin_lt_length : ∀ l : List ℚ, l ≠ [] → idxmin l < l.length
  | [], h => absurd rfl h
  | [a], _ => by simp [idxmin]
  | a :: b :: rest, _ => by
      by_cases hle : a ≤ listMin (b :: rest)
      · simp [idxmin, hle]
      · have ih := idxmin_lt_length (b :: rest) (by simp)
        simp only [List.length_cons] at ih
        simp only [idxmin, if_neg hle, List.length_cons]
        omega

theorem getD_idxmin : ∀ l : List ℚ, l ≠ [] → l.getD (idxmin l) 0 = listMin l
  | [], h => absurd rfl h
  | [a], _ => by simp [idxmin, listMin]
  | a :: b :: rest, _ => by
      by_cases hle : a ≤ listMin (b :: rest)
      · simp [idxmin, hle, listMin, min_eq_left hle]
      · have ih := getD_idxmin (b :: rest) (by simp)
        simp only [idxmin, if_neg hle, List.getD_cons_succ, listMin]
        rw [ih, min_eq_right (le_of_not_le hle)]

theorem idxmin_first :
    ∀ (l : List ℚ) (j : Nat), j < idxmin l → listMin l < l.getD j 0
  | [], j, h => by simp [idxmin] at h
  | [a], j, h => by simp [idxmin] at h
  | a :: b :: rest, j, h => by
      by_cases hle : a ≤ listMin (b :: rest)
      · rw [idxmin, if_pos hle] at h
        exact absurd h (by omega)
      · rw [idxmin, if_neg hle] at h
        cases j with
        | zero =>
          show listMin (a :: b :: rest) < a
          rw [listMin, min_eq_right (le_of_not_le hle)]
          exact not_le.mp hle
        | succ i =>
          have ih := idxmin_first (b :: rest) i (by omega)
          show listMin (a :: b :: rest) < (b :: rest).getD i 0
          rw [listMin, min_eq_right (le_of_not_le hle)]
          exact ih

theorem zipWith_getD {α β γ : Type*} (f : α → β → γ) (d : γ) (da : α) (db : β) :
    ∀ (as : List α) (bs : List β) (j : Nat), j < as.length → j < bs.length →
      (List.zipWith f as bs).getD j d = f (as.getD j da) (bs.getD j db) := by
  intro as
  induction as with
  | nil => intro bs j h1 h2; simp at h1
  | cons a as ih =>
    intro bs j h1 h2
    cases bs with
    | nil => simp at h2
    | cons b bs =>
      cases j with
      | zero => rfl
      | succ i =>
        have := ih bs i (by simpa using h1) (by simpa using h2)
        simpa [List.getD_cons_succ] using this

theorem tail_getD {α : Type*} (l : List α) (j : Nat) (d : α) :
    l.tail.getD j d = l.getD (j + 1) d := by
  cases l <;> rfl

theorem seriesDiff_getD (l : List ℚ) (i : Nat) (h1 : 1 ≤ i)
    (h2 : i < l.length) :
    (seriesDiff l).getD i FloatVal.nan =
      FloatVal.finite (l.getD i 0 - l.getD (i - 1) 0) := by
  obtain ⟨j, rfl⟩ : ∃ j, i = j + 1 := ⟨i - 1, by omega⟩
  rw [seriesDiff, List.getD_cons_succ]
  have hta : j < l.tail.length := by
    cases l with
    | nil => simp at h2
    | cons x xs => simp at h2 ⊢; omega
  rw [zipWith_getD _ _ 0 0 l l.tail j (by omega) hta, tail_getD]
  simp

theorem seriesDiff_length (l : List ℚ) (h : l ≠ []) :
    (seriesDiff l).length = l.length := by
  cases l with
  | nil => exact absurd rfl h
  | cons a rest => simp [seriesDiff]

theorem seriesTag_getD (X C : List ℚ) (i : Nat) (h1 : 1 ≤ i)
    (hX : i < X.length) (hC : i < C.length) :
    (seriesTag X C).getD i FloatVal.nan =
      fdiv (FloatVal.finite (X.getD i 0 - X.getD (i - 1) 0))
        (FloatVal.finite (C.getD i 0 - C.getD (i - 1) 0)) := by
  have hXne : X ≠ [] := by intro hx; rw [hx] at hX; simp at hX
  have hCne : C ≠ [] := by intro hc; rw [hc] at hC; simp at hC
  rw [seriesTag,
    zipWith_getD fdiv FloatVal.nan FloatVal.nan FloatVal.nan (seriesDiff X)
      (seriesDiff C) i
      (by rw [seriesDiff_length X hXne]; exact hX)
      (by rw [seriesDiff_length C hCne]; exact hC),
    seriesDiff_getD X i h1 hX, seriesDiff_getD C i h1 hC]

theorem fdiv_finite_ne_zero (a b : ℚ) (hb : b ≠ 0) :
    fdiv (FloatVal.finite a) (FloatVal.finite b) = FloatVal.finite (a / b) := by
  simp [fdiv, hb]

theorem fdiv_finite_zero_pos (a : ℚ) (ha : 0 < a) :
    fdiv (FloatVal.finite a) (FloatVal.finite 0) = FloatVal.posInf := by
  simp [fdiv, ha]

theorem bCore_eval (A B C : List ℚ) (J : ℚ) (sc : Nat)
    (hsc : scIndex A B J = sc) (h1 : 1 ≤ sc)
    (hA : sc < A.length) (hB : sc < B.length) (hC : sc < C.length)
    (hCd : C.getD sc 0 ≠ C.getD (sc - 1) 0)
    (hBne : B.getD sc 0 ≠ 0) (hAne : A.getD sc 0 ≠ 0) :
    bCore A B C J =
      fdiv (FloatVal.finite (A.getD sc 0))
        (FloatVal.finite (backwardDenom A B C sc)) := by
  have hCd0 : C.getD sc 0 - C.getD (sc - 1) 0 ≠ 0 := sub_ne_zero.mpr hCd
  have htB := seriesTag_getD B C sc h1 hB hC
  have htA := seriesTag_getD A C sc h1 hA hC
  simp only [bCore, hsc, htB, htA, fdiv_finite_ne_zero _ _ hCd0,
    fdiv_finite_ne_zero _ _ hBne, fdiv_finite_ne_zero _ _ hAne, fsub]
  rfl

/-- C2: theoretical_kink_density locates the critical index s* as the first
minimizer of |A(s) - B(s)*|J||, computes b = pi * A(s*) (GHz converted to Hz
by 1e9) divided by the backward-difference denominator with respect to the
normalized-time column, and returns for each anneal time t (converted to
seconds) the value t^(-1/2) / (2 pi sqrt(2 b)). -/
theorem c2_theoretical_kink_density (times : List ℚ) (J : ℚ)
    (A B C : List ℚ) (n sc : Nat)
    (hAl : A.length = n) (hBl : B.length = n) (hCl : C.length = n)
    (hn : 0 < n) (hsc : scIndex A B J = sc) (h1 : 1 ≤ sc)
    (hCd : C.getD sc 0 ≠ C.getD (sc - 1) 0)
    (hBne : B.getD sc 0 ≠ 0) (hAne : A.getD sc 0 ≠ 0)
    (hden : backwardDenom A B C sc ≠ 0)
    (hpos : 0 < A.getD sc 0 / backwardDenom A B C sc)
    (htpos : ∀ t ∈ times, 0 < t) :
    IsFirstArgmin (absDiffList A B J) sc ∧
    theoretical_kink_density times J A B C =
      times.map (fun t =>
        some (predictedValue t (A.getD sc 0) (backwardDenom A B C sc))) := by
  have hLlen : (absDiffList A B J).length = n := by
    simp [absDiffList, hAl, hBl]
  have hLne : absDiffList A B J ≠ [] := by
    intro hx
    rw [hx] at hLlen
    simp at hLlen
    omega
  have hidx : idxmin (absDiffList A B J) = sc := hsc
  constructor
  · refine ⟨?_, ?_, ?_⟩
    · rw [← hidx]
      exact idxmin_lt_length _ hLne
    · intro j hj
      rw [← hidx, getD_idxmin _ hLne]
      exact listMin_le_getD _ j hj
    · intro j hj
      rw [← hidx, getD_idxmin _ hLne]
      exact idxmin_first _ j (by rw [hidx]; exact hj)
  · have hscn : sc < n := by
      rw [← hidx, ← hLlen]
      exact idxmin_lt_length _ hLne
    have hb := bCore_eval A B C J sc hsc h1 (by omega) (by omega) (by omega)
      hCd hBne hAne
    rw [fdiv_finite_ne_zero _ _ hden] at hb
    set q : ℚ := A.getD sc 0 / backwardDenom A B C sc with hq
    rw [theoretical_kink_density]
    rw [hb]
    simp only [if_pos hpos]
    apply List.map_congr_left
    intro t ht
    have htp : (0 : ℚ) < t := htpos t ht
    have htne : ¬ t ≤ 0 := not_le.mpr htp
    rw [if_neg htne]
    congr 1
    have hx : (0 : ℝ) < (1e-9 : ℝ) * (t : ℝ) := by
      have : (0 : ℝ) < (t : ℝ) := by exact_mod_cast htp
      positivity
    rw [predictedValue, Real.rpow_neg hx.le, ← Real.sqrt_eq_rpow]
    congr 2
    push_cast [hq]
    ring_nf

/-- Witness for C2 at a concrete two-row schedule A = [4, 2], B = [1, 2],
C = [0, 1] with J = -1 and a single anneal time of 20 ns; the critical index
is 1. -/
theorem c2_theoretical_kink_density_witness :
    IsFirstArgmin (absDiffList [4, 2] [1, 2] (-1)) 1 ∧
    theoretical_kink_density [20] (-1) [4, 2] [1, 2] [0, 1] =
      ([20] : List ℚ).map (fun t =>
        some (predictedValue t (([4, 2] : List ℚ).getD 1 0)
          (backwardDenom [4, 2] [1, 2] [0, 1] 1))) :=
  c2_theoretical_kink_density [20] (-1) [4, 2] [1, 2] [0, 1] 2 1
    rfl rfl rfl (by norm_num) (by norm_num [scIndex, idxmin, listMin])
    (by norm_num) (by norm_num) (by norm_num) (by norm_num)
    (by norm_num [backwardDenom]) (by norm_num [backwardDenom]) (by norm_num)

/-- C8 (amended): when the derivative denominator at the critical index is
zero and A(s*) is positive, theoretical_kink_density signals nothing: the
float division gives b = +inf, the denominator 2 pi sqrt(2 b) is +inf, and
the function silently returns the finite float value 0.0 for every positive
anneal time; no failure path exists in the function. -/
theorem c8_zero_denominator_silent (times : List ℚ) (J : ℚ)
    (A B C : List ℚ) (sc : Nat)
    (hsc : scIndex A B J = sc) (h1 : 1 ≤ sc)
    (hA : sc < A.length) (hB : sc < B.length) (hC : sc < C.length)
    (hCd : C.getD sc 0 ≠ C.getD (sc - 1) 0)
    (hBne : B.getD sc 0 ≠ 0) (hApos : 0 < A.getD sc 0)
    (hden : backwardDenom A B C sc = 0)
    (htpos : ∀ t ∈ times, 0 < t) :
    theoretical_kink_density times J A B C =
      times.map (fun _ => some (0 : ℝ)) := by
  have hb := bCore_eval A B C J sc hsc h1 hA hB hC hCd hBne
    (ne_of_gt hApos)
  rw [hden, fdiv_finite_zero_pos _ hApos] at hb
  rw [theoretical_kink_density, hb]
  apply List.map_congr_left
  intro t ht
  rw [if_neg (not_le.mpr (htpos t ht))]

/-- Witness for C8 (amended) at the schedule A = [3, 1], B = [6, 2],
C = [0, 1] with J = -1: the derivative denominator at the critical index 1
is zero, A(s*) = 1 > 0, and the single returned entry for the anneal time
20 ns is the silently produced finite value 0.0. -/
theorem c8_zero_denominator_silent_witness :
    theoretical_kink_density [20] (-1) [3, 1] [6, 2] [0, 1] =
      ([20] : List ℚ).map (fun _ => some (0 : ℝ)) :=
  c8_zero_denominator_silent [20] (-1) [3, 1] [6, 2] [0, 1] 1
    (by norm_num [scIndex, idxmin, listMin]) (by norm_num) (by norm_num)
    (by norm_num) (by norm_num) (by norm_num) (by norm_num) (by norm_num)
    (by norm_num [backwardDenom]) (by norm_num)

/-- C8 counterexample: at the concrete schedule A = [3, 1], B = [6, 2],
C = [0, 1] with J = -1 the derivative denominator at the critical index is
zero, yet theoretical_kink_density signals no computation failure: the
float pipeline computes b = +inf (positive numerator 1e9 pi A(s*) over the
zero denominator) and the function silently returns the ordinary result
list with the finite value 0.0 for the 20 ns anneal time. -/
theorem c8_counterexample :
    backwardDenom [3, 1] [6, 2] [0, 1] (scIndex [3, 1] [6, 2] (-1)) = 0 ∧
    theoretical_kink_density [20] (-1) [3, 1] [6, 2] [0, 1] = [some 0] := by
  refine ⟨by norm_num [backwardDenom, scIndex, idxmin, listMin], ?_⟩
  have hb := bCore_eval [3, 1] [6, 2] [0, 1] (-1) 1
    (by norm_num [scIndex, idxmin, listMin]) (by norm_num) (by norm_num)
    (by norm_num) (by norm_num) (by norm_num) (by norm_num) (by norm_num)
  rw [show backwardDenom [3, 1] [6, 2] [0, 1] 1 = 0 from by
    norm_num [backwardDenom]] at hb
  rw [show (([3, 1] : List ℚ).getD 1 0) = 1 from rfl] at hb
  rw [fdiv_finite_zero_pos 1 (by norm_num)] at hb
  rw [theoretical_kink_density, hb]
  norm_num

/- ----------------------------------------------------------------- -/
/- helpers/qa.py : create_bqm (lines 34-50)                           -/
/- ----------------------------------------------------------------- -/

/-- A dimod binary quadratic model restricted to what create_bqm uses: the
variables in order of first appearance and the unordered quadratic
interactions in insertion order, each with its accumulated bias. -/
structure BQM where
  vars : List Nat
  quadratic : List ((Nat × Nat) × ℚ)
  deriving DecidableEq

/-- dimod adds a variable only when it is not present yet. -/
def addVar (vs : List Nat) (v : Nat) : List Nat :=
  if v ∈ vs then vs else vs ++ [v]

/-- Whether the unordered pair (u, v) already has an interaction. -/
def hasPair (l : List ((Nat × Nat) × ℚ)) (u v : Nat) : Bool :=
  l.any (fun e => decide (e.1 = (u, v) ∨ e.1 = (v, u)))

/-- Add bias onto the existing interaction of the unordered pair (u, v). -/
def bumpPair (l : List ((Nat × Nat) × ℚ)) (u v : Nat) (bias : ℚ) :
    List ((Nat × Nat) × ℚ) :=
  l.map (fun e => if e.1 = (u, v) ∨ e.1 = (v, u) then (e.1, e.2 + bias) else e)

/-- dimod BinaryQuadraticModel.add_quadratic: a self loop raises ValueError
(modelled as none); the bias is added onto an existing interaction of the
unordered pair, otherwise a new interaction is inserted; both variables are
added when absent. -/
def add_quadratic (bqm : BQM) (u v : Nat) (bias : ℚ) : Option BQM :=
  if u = v then none
  else
    let vs := addVar (addVar bqm.vars u) v
    if hasPair bqm.quadratic u v then some ⟨vs, bumpPair bqm.quadratic u v bias⟩
    else some ⟨vs, bqm.quadratic ++ [((u, v), bias)]⟩

/-- create_bqm (qa.py lines 34-50): for each spin in range(num_spins) add a
quadratic interaction between spin and (spin + 1) % num_spins with the given
coupling strength. -/
def create_bqm (num_spins : Nat) (coupling_strength : ℚ) : Option BQM :=
  (List.range num_spins).foldlM
    (fun bqm spin =>
      add_quadratic bqm spin ((spin + 1) % num_spins) coupling_strength)
    (⟨[], []⟩ : BQM)

theorem hasPair_range_map_false (m u v : Nat) (J : ℚ)
    (h : ∀ i < m, (i, i + 1) ≠ (u, v) ∧ (i, i + 1) ≠ (v, u)) :
    hasPair ((List.range m).map (fun i => ((i, i + 1), J))) u v = false := by
  rw [hasPair, List.any_eq_false]
  intro e he
  simp only [List.mem_map, List.mem_range] at he
  obtain ⟨i, hi, rfl⟩ := he
  simpa using h i hi

theorem addVar_mem (vs : List Nat) (v : Nat) (h : v ∈ vs) : addVar vs v = vs := by
  simp [addVar, h]

theorem addVar_new (vs : List Nat) (v : Nat) (h : ¬ v ∈ vs) :
    addVar vs v = vs ++ [v] := by
  simp [addVar, h]

theorem add_quadratic_fresh (bqm : BQM) (u v : Nat) (J : ℚ)
    (hne : ¬ u = v) (hu : u ∈ bqm.vars) (hv : ¬ v ∈ bqm.vars)
    (hp : hasPair bqm.quadratic u v = false) :
    add_quadratic bqm u v J =
      some ⟨bqm.vars ++ [v], bqm.quadratic ++ [((u, v), J)]⟩ := by
  rw [add_quadratic, if_neg hne]
  simp only [addVar_mem _ _ hu, addVar_new _ _ hv, hp, Bool.false_eq_true,
    if_false]

theorem add_quadratic_wrap (bqm : BQM) (u v : Nat) (J : ℚ)
    (hne : ¬ u = v) (hu : u ∈ bqm.vars) (hv : v ∈ bqm.vars)
    (hp : hasPair bqm.quadratic u v = false) :
    add_quadratic bqm u v J =
      some ⟨bqm.vars, bqm.quadratic ++ [((u, v), J)]⟩ := by
  rw [add_quadratic, if_neg hne]
  simp only [addVar_mem _ _ hu, addVar_mem _ _ hv, hp, Bool.false_eq_true,
    if_false]

theorem option_bind_some {α β : Type u} (a : α) (f : α → Option β) :
    (some a >>= f) = f a := rfl

theorem foldlM_singleton (f : BQM → Nat → Option BQM) (s : BQM) (x : Nat) :
    List.foldlM f s [x] = f s x := by
  cases h : f s x <;> simp [List.foldlM, h]

theorem create_bqm_partial (N : Nat) (J : ℚ) (hN : 2 ≤ N) :
    ∀ k, 1 ≤ k → k ≤ N - 1 →
      (List.range k).foldlM
        (fun bqm spin => add_quadratic bqm spin ((spin + 1) % N) J)
        (⟨[], []⟩ : BQM) =
      some ⟨List.range (k + 1),
        (List.range k).map (fun i => ((i, i + 1), J))⟩ := by
  intro k
  induction k with
  | zero => intro h1 _; omega
  | succ k ih =>
    intro _ h2
    by_cases hk : k = 0
    · subst hk
      have h1N : 1 % N = 1 := Nat.mod_eq_of_lt (by omega)
      have hr1 : List.range 1 = [0] := rfl
      rw [hr1, foldlM_singleton]
      rw [show ((0 + 1) % N) = 1 by simpa using h1N]
      rfl
    · have ihk := ih (by omega) (by omega)
      rw [List.range_succ, List.foldlM_append, ihk, option_bind_some,
        foldlM_singleton]
      have hmod : (k + 1) % N = k + 1 := Nat.mod_eq_of_lt (by omega)
      rw [hmod]
      rw [add_quadratic_fresh _ k (k + 1) J (by omega) (by simp) (by simp)
        (by
          apply hasPair_range_map_false
          intro i hi
          constructor <;> intro hcon <;> simp at hcon <;> omega)]
      simp [List.range_succ]

theorem create_bqm_ring (N : Nat) (J : ℚ) (hN : 3 ≤ N) :
    create_bqm N J =
      some ⟨List.range N,
        (List.range N).map (fun i => ((i, (i + 1) % N), J))⟩ := by
  have hsplit : List.range N = List.range (N - 1) ++ [N - 1] := by
    have hrw : N = (N - 1) + 1 := by omega
    nth_rewrite 1 [hrw]
    rw [List.range_succ]
  rw [create_bqm]
  nth_rewrite 1 [hsplit]
  rw [List.foldlM_append,
    create_bqm_partial N J (by omega) (N - 1) (by omega) (le_refl _),
    option_bind_some, foldlM_singleton]
  have hN1 : (N - 1) + 1 = N := by omega
  rw [hN1]
  have hmod : N % N = 0 := Nat.mod_self N
  rw [hmod]
  rw [add_quadratic_wrap _ (N - 1) 0 J (by omega) (by simp; omega)
    (by simp; omega)
    (by
      apply hasPair_range_map_false
      intro i hi
      constructor <;> intro hcon <;> simp at hcon <;> omega)]
  refine congrArg some ?_
  refine congrArg (BQM.mk (List.range N)) ?_
  nth_rewrite 2 [hsplit]
  rw [List.map_append]
  congr 1
  · apply List.map_congr_left
    intro i hi
    simp only [List.mem_range] at hi
    have hlt : (i + 1) % N = i + 1 := Nat.mod_eq_of_lt (by omega)
    rw [hlt]
  · simp [hmod, hN1]

/-- C10 (amended): for every ring size N >= 3 and every coupling strength J,
create_bqm yields the variables 0..N-1 and exactly N couplings, one on each
cyclic edge (i, (i+1) mod N), each with strength exactly J. For N = 2 the
two add_quadratic calls address the same unordered pair, leaving a single
coupling of strength 2J, and for N = 1 the self loop is rejected. -/
theorem c10_create_bqm (N : Nat) (J : ℚ) (hN : 3 ≤ N) :
    create_bqm N J =
      some ⟨List.range N,
        (List.range N).map (fun i => ((i, (i + 1) % N), J))⟩ ∧
    (List.range N).length = N ∧
    ((List.range N).map (fun i => ((i, (i + 1) % N), J))).length = N := by
  exact ⟨create_bqm_ring N J hN, by simp, by simp⟩

/-- Witness for C10 at the scenario input: build_ring(4, -1.0) yields the 4
variables 0..3 with couplings on the cyclic edges, each of strength -1. -/
theorem c10_create_bqm_witness :
    create_bqm 4 (-1) =
      some ⟨List.range 4,
        (List.range 4).map (fun i => ((i, (i + 1) % 4), (-1 : ℚ)))⟩ ∧
    (List.range 4).length = 4 ∧
    ((List.range 4).map (fun i => ((i, (i + 1) % 4), (-1 : ℚ)))).length = 4 :=
  c10_create_bqm 4 (-1) (by norm_num)

/-- C10 counterexample: at ring size 2 with J = -1 the code produces the two
variables 0 and 1 but a single coupling of strength -2, because the second
add_quadratic call adds its bias onto the existing (0, 1) interaction; so
the claim fails for the positive ring size 2 (and size 1 is rejected as a
self loop). -/
theorem c10_counterexample :
    create_bqm 2 (-1) = some ⟨[0, 1], [((0, 1), -2)]⟩ ∧
    ([((0, 1), (-2 : ℚ))].length ≠ 2 ∧ ((-2 : ℚ) ≠ -1)) ∧
    create_bqm 1 (-1) = none := by
  refine ⟨?_, by norm_num, ?_⟩
  · norm_num [create_bqm, List.range_succ, add_quadratic, addVar, hasPair,
      bumpPair]
  · norm_num [create_bqm, List.range_succ, add_quadratic]

/- ----------------------------------------------------------------- -/
/- helpers/qa.py : fitted_function (lines 140-157)                    -/
/- ----------------------------------------------------------------- -/

/-- fitted_function (qa.py lines 140-157): least-squares fit of
y = a + b x^2 via Polynomial.fit on x^2 with degree 1, returned as the
coefficient pair (a, b) of the fitted callable. numpy maps the data onto
the window [-1, 1] using the domain [min, max] of the x^2 values; when all
x^2 values coincide (fewer than 2 distinct values) that mapping divides by
zero, floods the data with non-finite values and np.linalg.lstsq raises
LinAlgError, modelled as none; an empty input or a length mismatch likewise
raises. Otherwise the design matrix has full column rank and the unique
least-squares solution is returned (exact-arithmetic model of the float
computation). -/
def fitted_function (xdata ydata : List ℚ) : Option (ℚ × ℚ) :=
  match xdata.map (fun x => x ^ 2) with
  | [] => none
  | z0 :: zrest =>
    if (z0 :: zrest).all (fun w => w == z0) then none
    else if (z0 :: zrest).length ≠ ydata.length then none
    else
      let z := z0 :: zrest
      let n : ℚ := (z.length : ℚ)
      let Sz := z.sum
      let Szz := (z.map (fun w => w ^ 2)).sum
      let Sy := ydata.sum
      let Szy := (List.zipWith (fun a b => a * b) z ydata).sum
      let slope := (n * Szy - Sz * Sy) / (n * Szz - Sz * Sz)
      some ((Sy - slope * Sz) / n, slope)

/-- C7 (amended): with fewer than 2 distinct x^2 values the fit fails with
an explicit error (the degenerate domain mapping ends in a LinAlgError)
rather than returning a fitted curve; in particular a pair of observations
with identical x values and different y values fails. Near-duplicate but
distinct x values, however, return a fitted curve (see the
counterexample). -/
theorem c7_fitted_function (xdata ydata : List ℚ) (x0 y1 y2 : ℚ)
    (hall : ∀ x ∈ xdata, ∀ x2 ∈ xdata, x ^ 2 = x2 ^ 2) (hxne : xdata ≠ [])
    (hy : y1 ≠ y2) :
    fitted_function xdata ydata = none ∧
    fitted_function [x0, x0] [y1, y2] = none := by
  constructor
  · obtain ⟨x, rest, rfl⟩ := List.exists_cons_of_ne_nil hxne
    have hcond : ((x ^ 2 :: rest.map (fun v => v ^ 2)).all
        (fun w => w == x ^ 2)) = true := by
      rw [List.all_eq_true]
      intro w hw
      simp only [List.mem_cons, List.mem_map] at hw
      rcases hw with h | ⟨v, hv, rfl⟩
      · simp [h]
      · have := hall v (by simp [hv]) x (by simp)
        simp [this]
    show fitted_function (x :: rest) ydata = none
    simp only [fitted_function, List.map_cons]
    rw [if_pos hcond]
  · simp [fitted_function]

/-- Witness for C7: two observations at x = 3 with different y values, and
the scenario pair (5, 2), (5, 7), both fail with an explicit error. -/
theorem c7_fitted_function_witness :
    fitted_function [3, 3] [0, 1] = none ∧
    fitted_function [5, 5] [2, 7] = none :=
  c7_fitted_function [3, 3] [0, 1] 5 2 7
    (by intro x hx y hy; simp at hx hy; rw [hx, hy]) (by simp) (by norm_num)

/-- C7 counterexample: for the near-duplicate but distinct x values 1 and
1001/1000 the fit does not fail: it returns a fitted curve, contradicting
the claim that ill-conditioned (near-duplicate) x values fail with an
explicit error. -/
theorem c7_counterexample :
    (fitted_function [1, 1001 / 1000] [0, 1]).isSome = true ∧
    (1 : ℚ) ≠ 1001 / 1000 := by
  constructor
  · norm_num [fitted_function]
  · norm_num

/- ----------------------------------------------------------------- -/
/- app.py : job lifecycle callback simulate (lines 660-771),          -/
/- qa.py : get_job_status (lines 71-94), app.py : startup (44-68)     -/
/- ----------------------------------------------------------------- -/

/-- Fuel-driven worker for the Python str.split semantics on character
lists: at each position a separator occurrence is consumed and opens a new
piece, otherwise the character joins the current piece. -/
def splitSepGo (sep : List Char) : Nat → List Char → List (List Char)
  | _, [] => [[]]
  | 0, l => [l]
  | n + 1, c :: rest =>
    if sep.isPrefixOf (c :: rest) then
      [] :: splitSepGo sep n (List.drop sep.length (c :: rest))
    else
      match splitSepGo sep n rest with
      | [] => [[c]]
      | p :: ps => (c :: p) :: ps

/-- Python str.split(sep) for a non-empty separator. -/
def pySplit (s sep : String) : List String :=
  (splitSepGo sep.data s.data.length s.data).map (fun cs => String.mk cs)

/-- The embeddings_found signal of the simulate callback: either one of the
sentinel strings ("needed", "not found") or a discovered embedding table
keyed by the ring size, with one qubit per spin. -/
inductive EmbVal where
  | str : String → EmbVal
  | table : Nat → List (Nat × Nat) → EmbVal
  deriving DecidableEq

/-- The two triggers that can fire the simulate callback. -/
inductive Trigger where
  | btnSimulate
  | wdInterval
  deriving DecidableEq

/-- External world of one simulate tick: the current clock string, the
outcome of the embedding-search try block (none models a raised exception,
some the returned dict) and the remote problem record for get_job_status
(none models ResourceNotFoundError, some the status value and label). -/
structure SimulateEnv where
  now : String
  searchResult : Option (List (Nat × Nat))
  remoteStatus : Option (String × String)
  deriving DecidableEq

/-- The seven outputs of the simulate callback; none models
dash.no_update. -/
structure SimulateOutput where
  btn_disabled : Option Bool
  wd_disabled : Option Bool
  wd_interval : Option ℚ
  wd_n_intervals : Option Nat
  job_submit_state : Option String
  job_submit_time : Option String
  embeddings_found : Option EmbVal
  deriving DecidableEq

/-- get_job_status (qa.py lines 71-94): a ResourceNotFoundError is caught
and yields Python None (modelled some none); otherwise the label is split
on "submitted: " and indexed at 1 - a label without the marker raises an
uncaught IndexError (modelled as the outer none); a label time differing
from the stored submission time yields None, a matching one yields the
status value. -/
def get_job_status (remote : Option (String × String))
    (job_submit_time : String) : Option (Option String) :=
  match remote with
  | none => some none
  | some (statusValue, label) =>
    match (pySplit label "submitted: ")[1]? with
    | none => none
    | some label_time =>
      some (if label_time = job_submit_time then some statusValue else none)

/-- simulate (app.py lines 660-771): the job lifecycle callback. The outer
none models an uncaught exception escaping the callback (only possible via
get_job_status). Intervals are in milliseconds, written exactly as in the
code (0.5 * 1000 and so on). -/
def simulate (env : SimulateEnv) (trigger : Trigger) (job_id : String)
    (job_submit_state job_submit_time : String)
    (cached_embedding_lengths : List Nat) (spins : Nat) (qpu_name : String)
    (embeddings_found : EmbVal) : Option SimulateOutput :=
  if trigger = Trigger.btnSimulate then
    if spins ∈ cached_embedding_lengths ∨ qpu_name = "Diffusion [Classical]" then
      some ⟨some true, some false, some ((0.5 : ℚ) * 1000), some 0,
        some "SUBMITTED",
        some (if qpu_name = "Diffusion [Classical]" then "SA" else env.now),
        none⟩
    else
      some ⟨some true, some false, some ((0.5 : ℚ) * 1000), some 0,
        some "EMBEDDING", none, some (EmbVal.str "needed")⟩
  else if job_submit_state = "EMBEDDING" then
    if embeddings_found = EmbVal.str "needed" then
      match env.searchResult with
      | some emb =>
        if emb ≠ [] then
          some ⟨some true, some false, some ((0.2 : ℚ) * 1000), some 0,
            some "EMBEDDING", none, some (EmbVal.table spins emb)⟩
        else
          some ⟨some true, some false, some ((0.2 : ℚ) * 1000), some 0,
            some "FAILED", none, some (EmbVal.str "not found")⟩
      | none =>
        some ⟨some true, some false, some ((0.2 : ℚ) * 1000), some 0,
          some "FAILED", none, some (EmbVal.str "not found")⟩
    else
      some ⟨some true, some false, some ((0.2 : ℚ) * 1000), some 0,
        some "SUBMITTED", some env.now, none⟩
  else if job_submit_state = "SUBMITTED" ∨ job_submit_state = "PENDING" ∨
      job_submit_state = "IN_PROGRESS" then
    match get_job_status env.remoteStatus job_submit_time with
    | none => none
    | some none =>
      some ⟨some true, some false, some ((0.2 : ℚ) * 1000), some 0,
        some "SUBMITTED", none, none⟩
    | some (some s) =>
      if s = "" then
        some ⟨some true, some false, some ((0.2 : ℚ) * 1000), some 0,
          some "SUBMITTED", none, none⟩
      else
        some ⟨some true, some false, some ((1 : ℚ) * 1000), some 0, some s,
          none, none⟩
  else if job_submit_state = "COMPLETED" ∨ job_submit_state = "CANCELLED" ∨
      job_submit_state = "FAILED" then
    some ⟨some false, some true, some ((0.1 : ℚ) * 1000), some 0, none, none,
      none⟩
  else
    some ⟨some false, some true, some 0, some 0, some "ERROR", none, none⟩

/-- C3 (amended): a submit-button trigger from READY or any terminal state
with a cached ring size or the local classical sampler goes directly to
SUBMITTED; the recorded submission timestamp is the current clock value,
except that the classical sampler records the constant sentinel "SA";
otherwise the state becomes EMBEDDING with the "needed" signal and the
timestamp is not updated. -/
theorem c3_submit_request (env : SimulateEnv) (job_id state t0 : String)
    (cache : List Nat) (spins : Nat) (qpu_name : String) (found : EmbVal)
    (hstate : state = "READY" ∨ state = "COMPLETED" ∨ state = "CANCELLED" ∨
      state = "FAILED") :
    (spins ∈ cache ∨ qpu_name = "Diffusion [Classical]" →
      simulate env Trigger.btnSimulate job_id state t0 cache spins qpu_name
          found =
        some ⟨some true, some false, some ((0.5 : ℚ) * 1000), some 0,
          some "SUBMITTED",
          some (if qpu_name = "Diffusion [Classical]" then "SA" else env.now),
          none⟩) ∧
    (¬ (spins ∈ cache ∨ qpu_name = "Diffusion [Classical]") →
      simulate env Trigger.btnSimulate job_id state t0 cache spins qpu_name
          found =
        some ⟨some true, some false, some ((0.5 : ℚ) * 1000), some 0,
          some "EMBEDDING", none, some (EmbVal.str "needed")⟩) := by
  constructor <;> intro h <;> simp [simulate, h]

/-- Witness for C3: from READY, ring size 512 present in the cache goes to
SUBMITTED with the fresh clock value, ring size 2048 absent from the cache
goes to EMBEDDING with the "needed" signal and no timestamp update. -/
theorem c3_submit_request_witness :
    simulate ⟨"Mon", none, none⟩ Trigger.btnSimulate "j" "READY" "t0" [512]
        512 "Advantage_system4.3" (EmbVal.str "na") =
      some ⟨some true, some false, some ((0.5 : ℚ) * 1000), some 0,
        some "SUBMITTED",
        some (if ("Advantage_system4.3" : String) = "Diffusion [Classical]"
          then "SA" else (⟨"Mon", none, none⟩ : SimulateEnv).now), none⟩ ∧
    simulate ⟨"Mon", none, none⟩ Trigger.btnSimulate "j" "READY" "t0" [512]
        2048 "Advantage_system4.3" (EmbVal.str "na") =
      some ⟨some true, some false, some ((0.5 : ℚ) * 1000), some 0,
        some "EMBEDDING", none, some (EmbVal.str "needed")⟩ :=
  ⟨(c3_submit_request ⟨"Mon", none, none⟩ "j" "READY" "t0" [512] 512
      "Advantage_system4.3" (EmbVal.str "na") (Or.inl rfl)).1
      (Or.inl (by simp)),
   (c3_submit_request ⟨"Mon", none, none⟩ "j" "READY" "t0" [512] 2048
      "Advantage_system4.3" (EmbVal.str "na") (Or.inl rfl)).2 (by decide)⟩

/-- C3 counterexample: a submit request from READY with the local classical
sampler goes to SUBMITTED but records the constant sentinel "SA" as the
submission timestamp, not the fresh clock value ("Mon Jan 1" here), so the
claim that a fresh timestamp is recorded fails for the classical sampler. -/
theorem c3_counterexample :
    simulate ⟨"Mon Jan 1", none, none⟩ Trigger.btnSimulate "j" "READY" "t0"
        [] 512 "Diffusion [Classical]" (EmbVal.str "na") =
      some ⟨some true, some false, some ((0.5 : ℚ) * 1000), some 0,
        some "SUBMITTED", some "SA", none⟩ ∧
    ("SA" : String) ≠ "Mon Jan 1" :=
  ⟨rfl, by decide⟩

/-- C4: in EMBEDDING with the signal "needed", a successful non-empty
search keeps the state EMBEDDING for that tick while publishing the result
table; the following tick (signal no longer "needed") moves to SUBMITTED
with a fresh timestamp; an empty search result or a raised exception moves
to FAILED with "not found"; and from FAILED the next tick changes no state
and disables the watchdog, so there is no automatic retry. -/
theorem c4_embedding_tick (envOk envEmpty envErr : SimulateEnv)
    (job_id t0 : String) (cache : List Nat) (spins : Nat) (qpu_name : String)
    (emb : List (Nat × Nat)) (found : EmbVal)
    (hok : envOk.searchResult = some emb) (hne : emb ≠ [])
    (hempty : envEmpty.searchResult = some [])
    (herr : envErr.searchResult = none) :
    (simulate envOk Trigger.wdInterval job_id "EMBEDDING" t0 cache spins
        qpu_name (EmbVal.str "needed") =
      some ⟨some true, some false, some ((0.2 : ℚ) * 1000), some 0,
        some "EMBEDDING", none, some (EmbVal.table spins emb)⟩) ∧
    (simulate envOk Trigger.wdInterval job_id "EMBEDDING" t0 cache spins
        qpu_name (EmbVal.table spins emb) =
      some ⟨some true, some false, some ((0.2 : ℚ) * 1000), some 0,
        some "SUBMITTED", some envOk.now, none⟩) ∧
    (simulate envEmpty Trigger.wdInterval job_id "EMBEDDING" t0 cache spins
        qpu_name (EmbVal.str "needed") =
      some ⟨some true, some false, some ((0.2 : ℚ) * 1000), some 0,
        some "FAILED", none, some (EmbVal.str "not found")⟩) ∧
    (simulate envErr Trigger.wdInterval job_id "EMBEDDING" t0 cache spins
        qpu_name (EmbVal.str "needed") =
      some ⟨some true, some false, some ((0.2 : ℚ) * 1000), some 0,
        some "FAILED", none, some (EmbVal.str "not found")⟩) ∧
    (simulate envErr Trigger.wdInterval job_id "FAILED" t0 cache spins
        qpu_name found =
      some ⟨some false, some true, some ((0.1 : ℚ) * 1000), some 0, none,
        none, none⟩) := by
  refine ⟨?_, ?_, ?_, ?_, ?_⟩ <;>
    simp [simulate, hok, hempty, herr, hne]

/-- Witness for C4 at a concrete embedding {0: (10,), 1: (11,), 2: (12,)}
for 3 spins. -/
theorem c4_embedding_tick_witness :
    (simulate ⟨"Mon", some [(0, 10), (1, 11), (2, 12)], none⟩
        Trigger.wdInterval "j" "EMBEDDING" "t0" [] 3 "Q"
        (EmbVal.str "needed") =
      some ⟨some true, some false, some ((0.2 : ℚ) * 1000), some 0,
        some "EMBEDDING", none,
        some (EmbVal.table 3 [(0, 10), (1, 11), (2, 12)])⟩) ∧
    (simulate ⟨"Mon", some [(0, 10), (1, 11), (2, 12)], none⟩
        Trigger.wdInterval "j" "EMBEDDING" "t0" [] 3 "Q"
        (EmbVal.table 3 [(0, 10), (1, 11), (2, 12)]) =
      some ⟨some true, some false, some ((0.2 : ℚ) * 1000), some 0,
        some "SUBMITTED",
        some (⟨"Mon", some [(0, 10), (1, 11), (2, 12)], none⟩ :
          SimulateEnv).now, none⟩) ∧
    (simulate ⟨"Mon", some [], none⟩ Trigger.wdInterval "j" "EMBEDDING" "t0"
        [] 3 "Q" (EmbVal.str "needed") =
      some ⟨some true, some false, some ((0.2 : ℚ) * 1000), some 0,
        some "FAILED", none, some (EmbVal.str "not found")⟩) ∧
    (simulate ⟨"Mon", none, none⟩ Trigger.wdInterval "j" "EMBEDDING" "t0"
        [] 3 "Q" (EmbVal.str "needed") =
      some ⟨some true, some false, some ((0.2 : ℚ) * 1000), some 0,
        some "FAILED", none, some (EmbVal.str "not found")⟩) ∧
    (simulate ⟨"Mon", none, none⟩ Trigger.wdInterval "j" "FAILED" "t0" [] 3
        "Q" (EmbVal.str "not found") =
      some ⟨some false, some true, some ((0.1 : ℚ) * 1000), some 0, none,
        none, none⟩) :=
  c4_embedding_tick ⟨"Mon", some [(0, 10), (1, 11), (2, 12)], none⟩
    ⟨"Mon", some [], none⟩ ⟨"Mon", none, none⟩ "j" "t0" [] 3 "Q"
    [(0, 10), (1, 11), (2, 12)] (EmbVal.str "not found") rfl (by simp) rfl rfl

/-- C5: on a polling tick in SUBMITTED, PENDING or IN_PROGRESS, a remote
lookup raising not-found, or a returned label whose recorded submit time
differs from the stored submission timestamp, keeps the state SUBMITTED
with the fast 0.2 * 1000 ms retry interval and is not an error; a matching
non-empty status moves the state to that status with the slower 1 * 1000 ms
interval. -/
theorem c5_status_poll (envMiss envStale envOk : SimulateEnv)
    (job_id t0 state st label lt st2 label2 : String)
    (cache : List Nat) (spins : Nat) (qpu_name : String) (found : EmbVal)
    (hstate : state = "SUBMITTED" ∨ state = "PENDING" ∨
      state = "IN_PROGRESS")
    (hmiss : envMiss.remoteStatus = none)
    (hstale : envStale.remoteStatus = some (st, label))
    (hlabel : (pySplit label "submitted: ")[1]? = some lt) (hlt : lt ≠ t0)
    (hokr : envOk.remoteStatus = some (st2, label2))
    (hlabel2 : (pySplit label2 "submitted: ")[1]? = some t0)
    (hst2 : st2 ≠ "") :
    (simulate envMiss Trigger.wdInterval job_id state t0 cache spins
        qpu_name found =
      some ⟨some true, some false, some ((0.2 : ℚ) * 1000), some 0,
        some "SUBMITTED", none, none⟩) ∧
    (simulate envStale Trigger.wdInterval job_id state t0 cache spins
        qpu_name found =
      some ⟨some true, some false, some ((0.2 : ℚ) * 1000), some 0,
        some "SUBMITTED", none, none⟩) ∧
    (simulate envOk Trigger.wdInterval job_id state t0 cache spins qpu_name
        found =
      some ⟨some true, some false, some ((1 : ℚ) * 1000), some 0, some st2,
        none, none⟩) := by
  rcases hstate with h | h | h <;> subst h <;>
    refine ⟨?_, ?_, ?_⟩ <;>
      simp [simulate, get_job_status, hmiss, hstale, hlabel, hlt, hokr,
        hlabel2, hst2]

/-- Witness for C5 in state PENDING: a not-found lookup and a stale label
("x submitted: t1" against stored time "t0") both keep SUBMITTED at the
fast interval; a matching label with status PENDING moves to PENDING at
the slow interval. -/
theorem c5_status_poll_witness :
    (simulate ⟨"Mon", none, none⟩ Trigger.wdInterval "j" "PENDING" "t0" []
        512 "Q" (EmbVal.str "na") =
      some ⟨some true, some false, some ((0.2 : ℚ) * 1000), some 0,
        some "SUBMITTED", none, none⟩) ∧
    (simulate ⟨"Mon", none, some ("PENDING", "x submitted: t1")⟩
        Trigger.wdInterval "j" "PENDING" "t0" [] 512 "Q" (EmbVal.str "na") =
      some ⟨some true, some false, some ((0.2 : ℚ) * 1000), some 0,
        some "SUBMITTED", none, none⟩) ∧
    (simulate ⟨"Mon", none, some ("PENDING", "x submitted: t0")⟩
        Trigger.wdInterval "j" "PENDING" "t0" [] 512 "Q" (EmbVal.str "na") =
      some ⟨some true, some false, some ((1 : ℚ) * 1000), some 0,
        some "PENDING", none, none⟩) :=
  c5_status_poll ⟨"Mon", none, none⟩
    ⟨"Mon", none, some ("PENDING", "x submitted: t1")⟩
    ⟨"Mon", none, some ("PENDING", "x submitted: t0")⟩ "j" "t0" "PENDING"
    "PENDING" "x submitted: t1" "t1" "PENDING" "x submitted: t0" [] 512 "Q"
    (EmbVal.str "na") (Or.inr (Or.inl rfl)) rfl rfl (by decide) (by decide)
    rfl (by decide) (by decide)

/-- C6 (amended): the polling tick in IN_PROGRESS that sees the status
COMPLETED moves the state to COMPLETED but leaves the submit control
disabled and the polling timer enabled at the 1 * 1000 ms interval; only
the following tick, in the terminal state, re-enables the submit control,
disables the polling timer and leaves state and timestamp unchanged, as do
CANCELLED and FAILED. -/
theorem c6_completed_terminal (envDone : SimulateEnv)
    (job_id t0 label : String) (cache : List Nat) (spins : Nat)
    (qpu_name : String) (found : EmbVal)
    (hremote : envDone.remoteStatus = some ("COMPLETED", label))
    (hlabel : (pySplit label "submitted: ")[1]? = some t0) :
    (simulate envDone Trigger.wdInterval job_id "IN_PROGRESS" t0 cache spins
        qpu_name found =
      some ⟨some true, some false, some ((1 : ℚ) * 1000), some 0,
        some "COMPLETED", none, none⟩) ∧
    (∀ s, s = "COMPLETED" ∨ s = "CANCELLED" ∨ s = "FAILED" →
      simulate envDone Trigger.wdInterval job_id s t0 cache spins qpu_name
          found =
        some ⟨some false, some true, some ((0.1 : ℚ) * 1000), some 0, none,
          none, none⟩) := by
  constructor
  · simp [simulate, get_job_status, hremote, hlabel]
  · intro s hs
    rcases hs with h | h | h <;> subst h <;> simp [simulate]

/-- Witness for C6: job id "2" in IN_PROGRESS with a matching COMPLETED
record moves to COMPLETED (controls unchanged on that tick), and the
following tick in COMPLETED re-enables the submit control and disables the
timer. -/
theorem c6_completed_terminal_witness :
    (simulate ⟨"Mon", none, some ("COMPLETED", "x submitted: t0")⟩
        Trigger.wdInterval "2" "IN_PROGRESS" "t0" [] 512 "Q"
        (EmbVal.str "na") =
      some ⟨some true, some false, some ((1 : ℚ) * 1000), some 0,
        some "COMPLETED", none, none⟩) ∧
    (∀ s, s = "COMPLETED" ∨ s = "CANCELLED" ∨ s = "FAILED" →
      simulate ⟨"Mon", none, some ("COMPLETED", "x submitted: t0")⟩
          Trigger.wdInterval "2" s "t0" [] 512 "Q" (EmbVal.str "na") =
        some ⟨some false, some true, some ((0.1 : ℚ) * 1000), some 0, none,
          none, none⟩) :=
  c6_completed_terminal ⟨"Mon", none, some ("COMPLETED", "x submitted: t0")⟩
    "2" "t0" "x submitted: t0" [] 512 "Q" (EmbVal.str "na") rfl (by decide)

/-- C6 counterexample: the tick in IN_PROGRESS whose status query returns
COMPLETED outputs btn_disabled = some true and wd_disabled = some false,
so on that tick the submit control is not re-enabled and the polling timer
is not disabled, contrary to the claim; both happen one tick later. -/
theorem c6_counterexample :
    simulate ⟨"Mon", none, some ("COMPLETED", "x submitted: t0")⟩
        Trigger.wdInterval "2" "IN_PROGRESS" "t0" [] 512 "Q"
        (EmbVal.str "na") =
      some ⟨some true, some false, some ((1 : ℚ) * 1000), some 0,
        some "COMPLETED", none, none⟩ ∧
    (some true : Option Bool) ≠ some false ∧
    (some false : Option Bool) ≠ some true :=
  ⟨rfl, by simp, by simp⟩

/-- Python truthiness of the module-level client value: None is falsy, a
string is truthy when non-empty, a real Client object is truthy. -/
inductive ClientVal where
  | realClient
  | str : String → ClientVal
  | noneV
  deriving DecidableEq

def clientTruthy : ClientVal → Bool
  | ClientVal.noneV => false
  | ClientVal.str s => decide (s ≠ "")
  | ClientVal.realClient => true

/-- Startup initialization (app.py lines 44-68): the try block configures
the client and collects the matching QPUs, raising when none match; the
except block leaves no QPUs, client None and status "NO SOLVER". Afterwards
the classical sampler is appended when USE_CLASSICAL is set, line 65
unconditionally overwrites the status with "READY", and lines 67-68 replace
a falsy client with the string "dummy". The startup environment is none
when Client.from_config raises, otherwise the list of matching QPU names. -/
def appInit (startup : Option (List String)) (useClassical : Bool) :
    List String × ClientVal × String :=
  let base :=
    match startup with
    | some names =>
      if names.length < 1 then (([] : List String), ClientVal.noneV, "NO SOLVER")
      else (names, ClientVal.realClient, "READY")
    | none => (([] : List String), ClientVal.noneV, "NO SOLVER")
  let qpus := if useClassical then base.1 ++ ["Diffusion [Classical]"] else base.1
  let client := base.2.1
  let client2 := if clientTruthy client then client else ClientVal.str "dummy"
  (qpus, client2, "READY")

/-- alert_no_solver (app.py lines 253-260): the no-solver modal opens only
when the simulate button was the trigger and the client value is falsy. -/
def alert_no_solver (triggered_id : Option String) (client : ClientVal) :
    Bool :=
  decide (triggered_id = some "btn_simulate") && !clientTruthy client

/-- C9: with no accessible sampler at startup (the client raises, or no QPU
matches), line 65 of app.py overwrites the "NO SOLVER" status with "READY"
and lines 67-68 replace the None client with the truthy string "dummy", so
the system initializes in READY, not NO SOLVER, and alert_no_solver can
never open the no-solver modal on a submit attempt. -/
theorem c9_no_solver_defeated (useClassical : Bool) :
    ((appInit none useClassical).2.2 = "READY" ∧
      ("READY" : String) ≠ "NO SOLVER") ∧
    clientTruthy (appInit none useClassical).2.1 = true ∧
    alert_no_solver (some "btn_simulate") (appInit none useClassical).2.1 =
      false ∧
    ((appInit (some []) useClassical).2.2 = "READY" ∧
      alert_no_solver (some "btn_simulate")
        (appInit (some []) useClassical).2.1 = false) := by
  cases useClassical <;>
    exact ⟨⟨rfl, by decide⟩, rfl, rfl, rfl, rfl⟩
